import Mathlib

/-!
Verification of `src/dotnet_base64_decoder.py` (a .NET base64 string
deobfuscator built on dnlib) against its natural-language specification.

The script is shallowly embedded as follows.

* A loaded module (`ModuleDefMD`) is a `ModuleDef`: a list of types, each a
  list of methods, each with a `hasBody` flag and an ordered instruction list
  (`Method.Body.Instructions`).
* A dnlib `Instruction` is an `(opCode, operand)` pair.  Instructions are
  mutable objects with reference identity in the original program; the field
  `iid` models that object identity (distinct objects have distinct `iid`),
  and a recorded match refers to instructions by their position, which is the
  faithful reading as long as each body's instruction list has no duplicate
  objects (the `Nodup` hypotheses below).
* `self.base64_calls` and `self.file_module` live in `DecoderState`; Python's
  in-place mutation becomes explicit state passing.
* `base64.b64decode` (default `validate=False`) and `bytes.decode("utf-8")`
  are modelled by `b64decode` (CPython's legacy `binascii.a2b_base64`
  algorithm: non-alphabet characters are discarded, `"="` terminates a quad
  once at least two data characters are present, a trailing partial quad is
  an error) and by `utf8Decode` (strict UTF-8: rejects overlong forms,
  surrogates and code points above `0x10FFFF`).  Exceptions become
  `Except`/`Option` results; `logging.error` calls become an explicit log
  list returned by the patcher.
-/

/-- dnlib operation codes that the script distinguishes (`OpCodes.Call`,
`OpCodes.Ldstr`, `OpCodes.Nop`); every other opcode is `other`. -/
inductive OpCode where
  | call : OpCode
  | ldstr : OpCode
  | nop : OpCode
  | other : Nat → OpCode
deriving DecidableEq, Repr

/-- An instruction operand: a `MemberRef` (with `DeclaringType.FullName` and
`Name`, the two fields the script reads), a string literal, or anything
else. -/
inductive Operand where
  | memberRef : String → String → Operand
  | str : String → Operand
  | other : Nat → Operand
deriving DecidableEq, Repr

/-- A dnlib `Instruction`.  `iid` models the object identity of the mutable
instruction object; `opCode` and `operand` are its mutable fields. -/
structure Instruction where
  iid : Nat
  opCode : OpCode
  operand : Operand
deriving DecidableEq, Repr

/-- A dnlib `MethodDef`: `HasBody` plus `Body.Instructions` (the instruction
list is only meaningful when `hasBody = true`; dnlib's `Body` is null
otherwise). -/
structure MethodDef where
  hasBody : Bool
  body : List Instruction
deriving DecidableEq, Repr

/-- A dnlib `TypeDef`: its `Methods` list. -/
structure TypeDef where
  methods : List MethodDef
deriving DecidableEq, Repr

/-- A loaded module (`ModuleDefMD`): its `Types` list. -/
structure ModuleDef where
  types : List TypeDef
deriving DecidableEq, Repr

/-- One entry of `self.base64_calls`: the tuple
`(method, call_insn, prev_insn)` appended at line 51.  The method and the two
instruction objects are identified by position: `tIdx`/`mIdx` locate the
method, `callIdx` the call instruction and `strIdx` the recorded "previous"
instruction inside that method's body. -/
structure MatchRec where
  tIdx : Nat
  mIdx : Nat
  callIdx : Nat
  strIdx : Nat
deriving DecidableEq, Repr

/-- The state of a `Base64StringDecoder` object: `self.file_path`,
`self.file_module` and `self.base64_calls`. -/
structure DecoderState where
  file_path : String
  file_module : ModuleDef
  base64_calls : List MatchRec
deriving DecidableEq, Repr

/-- The Python exceptions that `decode_base64_strings` can catch at line 70:
`TypeError` (operand is not a string), `ValueError` (non-ASCII characters in
the string passed to `b64decode`), `binascii.Error` (bad padding) and
`UnicodeDecodeError` (decoded bytes are not valid UTF-8). -/
inductive PyDecodeError where
  | typeError : PyDecodeError
  | valueError : PyDecodeError
  | paddingError : PyDecodeError
  | utf8Error : PyDecodeError
deriving DecidableEq, Repr

deriving instance DecidableEq for Except

/-- Value of a character in the standard base64 alphabet, `none` for
characters outside it (CPython's `table_a2b_base64`). -/
def b64CharVal (c : Char) : Option Nat :=
  if 'A' ≤ c ∧ c ≤ 'Z' then some (c.toNat - 65)
  else if 'a' ≤ c ∧ c ≤ 'z' then some (c.toNat - 97 + 26)
  else if '0' ≤ c ∧ c ≤ '9' then some (c.toNat - 48 + 52)
  else if c = '+' then some 62
  else if c = '/' then some 63
  else none

/-- CPython's legacy (`strict_mode=False`) `binascii.a2b_base64` loop: walk
the characters, skip any character outside the alphabet, let `"="` finish the
current quad once it holds at least two data characters (stopping the whole
decode), and fail if a partial quad remains at the end.  Arguments: remaining
characters, `quad_pos`, `leftchar`, `pads`, output bytes (reversed). -/
def a2b_base64 : List Char → Nat → Nat → Nat → List Nat → Option (List Nat)
  | [], quadPos, _, _, acc =>
      if quadPos = 0 then some acc.reverse else none
  | c :: cs, quadPos, leftchar, pads, acc =>
      if c = '=' then
        if 2 ≤ quadPos then
          if 4 ≤ quadPos + (pads + 1) then some acc.reverse
          else a2b_base64 cs quadPos leftchar (pads + 1) acc
        else a2b_base64 cs quadPos leftchar pads acc
      else
        match b64CharVal c with
        | none => a2b_base64 cs quadPos leftchar pads acc
        | some d =>
          match quadPos with
          | 0 => a2b_base64 cs 1 d 0 acc
          | 1 => a2b_base64 cs 2 (d % 16) 0 ((leftchar * 4 + d / 16) :: acc)
          | 2 => a2b_base64 cs 3 (d % 4) 0 ((leftchar * 16 + d / 4) :: acc)
          | _ => a2b_base64 cs 0 0 0 ((leftchar * 64 + d) :: acc)

/-- `base64.b64decode(s)` for a `str` argument with the default
`validate=False`: the string must be pure ASCII (otherwise `ValueError`),
then the legacy `a2b_base64` loop runs (a padding problem raises
`binascii.Error`). -/
def b64decode (s : String) : Except PyDecodeError (List Nat) :=
  if s.data.all (fun c => c.toNat < 128) then
    match a2b_base64 s.data 0 0 0 [] with
    | some bytes => Except.ok bytes
    | none => Except.error PyDecodeError.paddingError
  else Except.error PyDecodeError.valueError

/-- Strict UTF-8 decoding of a byte list into code points, as
`bytes.decode("utf-8")` does: rejects stray continuation bytes, overlong
encodings, surrogate code points and values above `0x10FFFF`. -/
def utf8DecodeAux : List Nat → List Char → Option (List Char)
  | [], acc => some acc.reverse
  | b :: bs, acc =>
    if b < 0x80 then utf8DecodeAux bs (Char.ofNat b :: acc)
    else if b < 0xC2 then none
    else if b < 0xE0 then
      match bs with
      | b1 :: bs1 =>
        if 0x80 ≤ b1 ∧ b1 < 0xC0 then
          utf8DecodeAux bs1 (Char.ofNat ((b - 0xC0) * 64 + (b1 - 0x80)) :: acc)
        else none
      | [] => none
    else if b < 0xF0 then
      match bs with
      | b1 :: b2 :: bs2 =>
        if (if b = 0xE0 then 0xA0 else 0x80) ≤ b1 ∧
            b1 < (if b = 0xED then 0xA0 else 0xC0) ∧
            0x80 ≤ b2 ∧ b2 < 0xC0 then
          utf8DecodeAux bs2
            (Char.ofNat ((b - 0xE0) * 4096 + (b1 - 0x80) * 64 + (b2 - 0x80)) :: acc)
        else none
      | _ => none
    else if b < 0xF5 then
      match bs with
      | b1 :: b2 :: b3 :: bs3 =>
        if (if b = 0xF0 then 0x90 else 0x80) ≤ b1 ∧
            b1 < (if b = 0xF4 then 0x90 else 0xC0) ∧
            0x80 ≤ b2 ∧ b2 < 0xC0 ∧ 0x80 ≤ b3 ∧ b3 < 0xC0 then
          utf8DecodeAux bs3
            (Char.ofNat ((b - 0xF0) * 262144 + (b1 - 0x80) * 4096 +
              (b2 - 0x80) * 64 + (b3 - 0x80)) :: acc)
        else none
      | _ => none
    else none

/-- `bytes.decode("utf-8")` on a byte list: `some` of the decoded string, or
`none` for a `UnicodeDecodeError`. -/
def utf8Decode (bs : List Nat) : Option String :=
  (utf8DecodeAux bs []).map (fun cs => String.mk cs)

/-- Lines 64-65 of the script: `base64.b64decode(base64_str)` followed by
`decoded_bytes.decode("utf-8")`, with the exception that escapes. -/
def tryDecodeStr (s : String) : Except PyDecodeError String :=
  match b64decode s with
  | Except.error e => Except.error e
  | Except.ok bytes =>
    match utf8Decode bytes with
    | some d => Except.ok d
    | none => Except.error PyDecodeError.utf8Error

/-- Line 44 and 46-48: the instruction is an `OpCodes.Call` whose operand is
a `MemberRef` with `DeclaringType.FullName == "System.Convert"` and
`Name == "FromBase64String"`. -/
def isTargetCall (insn : Instruction) : Bool :=
  if insn.opCode = OpCode.call then
    match insn.operand with
    | Operand.memberRef declType nm =>
      if declType = "System.Convert" ∧ nm = "FromBase64String" then true else false
    | _ => false
  else false

/-- The index Python reads at line 49: `Instructions[IndexOf(insn) - 1]`.
For `IndexOf = i ≥ 1` this is ordinary index `i - 1`; for `i = 0` the Python
index is `-1`, which wraps around to the LAST element of the sequence. -/
def pyPrevIdx (len i : Nat) : Nat :=
  if i = 0 then len - 1 else i - 1

/-- Lines 44-51 for a single instruction `insn` of a body `insns`: the list
(empty or a singleton) of `(call position, recorded previous position)`
pairs appended to `self.base64_calls` for that instruction.  `IndexOf` is
first-occurrence search by equality, as on the dnlib instruction list. -/
def scanHit (insns : List Instruction) (insn : Instruction) : List (Nat × Nat) :=
  if isTargetCall insn then
    match insns[pyPrevIdx insns.length (insns.indexOf insn)]? with
    | some prev =>
      if prev.opCode = OpCode.ldstr then
        [(insns.indexOf insn, pyPrevIdx insns.length (insns.indexOf insn))]
      else []
    | none => []
  else []

/-- Lines 43-51: fold over the instruction list, appending the hits. -/
def scanBody (insns : List Instruction) : List (Nat × Nat) :=
  insns.foldl (fun acc insn => acc ++ scanHit insns insn) []

/-- Lines 40-51 for one method: methods without a body are skipped
(`continue`), otherwise the body is scanned and each hit is tagged with the
method's position. -/
def scanMethod (tIdx mIdx : Nat) (me : MethodDef) : List MatchRec :=
  if me.hasBody then
    (scanBody me.body).map (fun cp => ⟨tIdx, mIdx, cp.1, cp.2⟩)
  else []

/-- Lines 38-51: iterate the module's types and their methods in order. -/
def scanModule (mod : ModuleDef) : List MatchRec :=
  mod.types.enum.flatMap (fun tp =>
    tp.2.methods.enum.flatMap (fun mp => scanMethod tp.1 mp.1 mp.2))

/-- `identify_base64_calls` (lines 34-51): appends every hit found in
`self.file_module` to `self.base64_calls`; nothing else changes. -/
def identify_base64_calls (s : DecoderState) : DecoderState :=
  { s with base64_calls := s.base64_calls ++ scanModule s.file_module }

/-- Look up the instruction at position `i` of method `(t, m)`. -/
def getInsn (mod : ModuleDef) (t m i : Nat) : Option Instruction :=
  match mod.types[t]? with
  | some ty =>
    match ty.methods[m]? with
    | some me => me.body[i]?
    | none => none
  | none => none

/-- Apply `f` to the element at position `n`, if any. -/
def modIdx (f : α → α) : Nat → List α → List α
  | _, [] => []
  | 0, x :: xs => f x :: xs
  | n + 1, x :: xs => x :: modIdx f n xs

/-- In-place mutation of the instruction object at position `i` of method
`(t, m)`. -/
def modifyInsn (mod : ModuleDef) (t m i : Nat) (f : Instruction → Instruction) : ModuleDef :=
  { types :=
      modIdx (fun ty =>
        { methods :=
            modIdx (fun me => { me with body := modIdx f i me.body }) m ty.methods })
        t mod.types }

/-- Lines 67-68: `str_insn.Operand = decoded_str; str_insn.OpCode = Ldstr`. -/
def patchStr (d : String) (insn : Instruction) : Instruction :=
  { insn with operand := Operand.str d, opCode := OpCode.ldstr }

/-- Line 69: `call_insn.OpCode = Nop`. -/
def patchCall (insn : Instruction) : Instruction :=
  { insn with opCode := OpCode.nop }

/-- Lines 61-71 for one recorded match, acting on the state
`(module, decoded_strings, error log)`: read `str_insn.Operand`, try
base64-then-UTF-8 decoding, on success append the pair and mutate the two
instructions, on any exception append a log entry and leave the module
untouched.  (The `none` branch for a dangling position cannot arise for
matches recorded by the scanner.) -/
def decodeStep (st : ModuleDef × List (String × String) × List (Operand × PyDecodeError))
    (m : MatchRec) : ModuleDef × List (String × String) × List (Operand × PyDecodeError) :=
  match getInsn st.1 m.tIdx m.mIdx m.strIdx with
  | none => st
  | some strInsn =>
    match strInsn.operand with
    | Operand.str s =>
      match tryDecodeStr s with
      | Except.ok d =>
        (modifyInsn (modifyInsn st.1 m.tIdx m.mIdx m.strIdx (patchStr d))
            m.tIdx m.mIdx m.callIdx patchCall,
         st.2.1 ++ [(s, d)], st.2.2)
      | Except.error e => (st.1, st.2.1, st.2.2 ++ [(Operand.str s, e)])
    | op => (st.1, st.2.1, st.2.2 ++ [(op, PyDecodeError.typeError)])

/-- `decode_base64_strings` (lines 53-72): process `self.base64_calls` in
order, returning the new state, the returned `decoded_strings` list and the
`logging.error` entries (offending operand plus cause). -/
def decode_base64_strings (s : DecoderState) :
    DecoderState × List (String × String) × List (Operand × PyDecodeError) :=
  ({ s with file_module := (s.base64_calls.foldl decodeStep (s.file_module, [], [])).1 },
   (s.base64_calls.foldl decodeStep (s.file_module, [], [])).2.1,
   (s.base64_calls.foldl decodeStep (s.file_module, [], [])).2.2)

/-- Split a character list at its LAST `'.'`, returning the parts before and
after it; `none` when there is no `'.'`.  This is `str.rsplit(".", 1)`:
`none` models the one-element result list, `some (a, b)` the two-element
one. -/
def lastDotSplit : List Char → Option (List Char × List Char)
  | [] => none
  | c :: rest =>
    match lastDotSplit rest with
    | some (a, b) => some (c :: a, b)
    | none => if c = '.' then some ([], rest) else none

/-- Lines 84-88: the output file name built by `save_module` from
`self.file_path`. -/
def cleaned_filename (fp : String) : String :=
  match lastDotSplit fp.data with
  | none => fp ++ "_decoded.exe"
  | some (a, b) => String.mk a ++ "_decoded." ++ String.mk b

/-- `save_module` (lines 74-91): the module is serialized by the external
Writer to `cleaned_filename self.file_path`, which is returned. -/
def save_module (s : DecoderState) : String :=
  cleaned_filename s.file_path

/-- The result of one run of `main` after the module has been loaded. -/
structure RunResult where
  state : DecoderState
  decoded_strings : List (String × String)
  logs : List (Operand × PyDecodeError)
  printedTable : Bool
  savedPath : Option String
deriving DecidableEq, Repr

/-- `main` (lines 108-119) after `ModuleDefMD.Load`: build the decoder, run
`identify_base64_calls`, then `decode_base64_strings`, and only if the
returned list is non-empty print the table and call `save_module`. -/
def mainPipeline (fp : String) (mod : ModuleDef) : RunResult :=
  let s1 := identify_base64_calls { file_path := fp, file_module := mod, base64_calls := [] }
  let r := decode_base64_strings s1
  if r.2.1.isEmpty then
    { state := r.1, decoded_strings := r.2.1, logs := r.2.2,
      printedTable := false, savedPath := none }
  else
    { state := r.1, decoded_strings := r.2.1, logs := r.2.2,
      printedTable := true, savedPath := some (save_module r.1) }

/-- What one recorded match contributes to `decoded_strings`, read off the
given module: `some (encoded, decoded)` exactly when the recorded previous
instruction's operand is a string that decodes under base64 then UTF-8. -/
def decodePairSpec (mod : ModuleDef) (m : MatchRec) : Option (String × String) :=
  match getInsn mod m.tIdx m.mIdx m.strIdx with
  | some insn =>
    match insn.operand with
    | Operand.str s =>
      match tryDecodeStr s with
      | Except.ok d => some (s, d)
      | Except.error _ => none
    | _ => none
  | none => none

/-- What one recorded match contributes to the error log, read off the given
module. -/
def logSpec (mod : ModuleDef) (m : MatchRec) : List (Operand × PyDecodeError) :=
  match getInsn mod m.tIdx m.mIdx m.strIdx with
  | some insn =>
    match insn.operand with
    | Operand.str s =>
      match tryDecodeStr s with
      | Except.ok _ => []
      | Except.error e => [(Operand.str s, e)]
    | op => [(op, PyDecodeError.typeError)]
  | none => []

/-- The module after one `decodeStep`, expressed via `decodePairSpec`. -/
def patchedMod (mod : ModuleDef) (m : MatchRec) : ModuleDef :=
  match decodePairSpec mod m with
  | some sd =>
    modifyInsn (modifyInsn mod m.tIdx m.mIdx m.strIdx (patchStr sd.2))
      m.tIdx m.mIdx m.callIdx patchCall
  | none => mod

/-- The two instruction positions a match refers to. -/
def callSlot (m : MatchRec) : Nat × Nat × Nat := (m.tIdx, m.mIdx, m.callIdx)

/-- The recorded previous-instruction position of a match. -/
def strSlot (m : MatchRec) : Nat × Nat × Nat := (m.tIdx, m.mIdx, m.strIdx)

/-- Both positions of one match. -/
def slotsOf (m : MatchRec) : List (Nat × Nat × Nat) := [callSlot m, strSlot m]

/-- All positions referred to by a match list. -/
def allSlots (ms : List MatchRec) : List (Nat × Nat × Nat) := ms.flatMap slotsOf

/-- Position lookup through a slot triple. -/
def getSlot (mod : ModuleDef) (p : Nat × Nat × Nat) : Option Instruction :=
  getInsn mod p.1 p.2.1 p.2.2

/-- Sample instruction: `Ldstr "SGVsbG8="`. -/
def iLd : Instruction := ⟨0, OpCode.ldstr, Operand.str "SGVsbG8="⟩

/-- Sample instruction: `Call System.Convert.FromBase64String`. -/
def iCall : Instruction := ⟨1, OpCode.call, Operand.memberRef "System.Convert" "FromBase64String"⟩

/-- The end-to-end module of the spec: one method whose body is
`[Ldstr "SGVsbG8=", Call Convert.FromBase64String]`. -/
def modHello : ModuleDef := ⟨[⟨[⟨true, [iLd, iCall]⟩]⟩]⟩

/-- A target call as the very FIRST instruction of a body. -/
def wCall : Instruction := ⟨0, OpCode.call, Operand.memberRef "System.Convert" "FromBase64String"⟩

/-- An unrelated string literal sitting at the END of the same body. -/
def wLd : Instruction := ⟨1, OpCode.ldstr, Operand.str "QUJD"⟩

/-- Boundary module: the target call is the first instruction of the body
`[Call Convert.FromBase64String, Ldstr "QUJD"]`. -/
def modWrap : ModuleDef := ⟨[⟨[⟨true, [wCall, wLd]⟩]⟩]⟩

/-- A literal that fails to decode, followed by the target call, followed by
a literal that decodes, followed by another target call. -/
def modMixed : ModuleDef :=
  ⟨[⟨[⟨true,
      [⟨0, OpCode.ldstr, Operand.str "not-base64!!"⟩,
       ⟨1, OpCode.call, Operand.memberRef "System.Convert" "FromBase64String"⟩,
       ⟨2, OpCode.ldstr, Operand.str "SGVsbG8="⟩,
       ⟨3, OpCode.call, Operand.memberRef "System.Convert" "FromBase64String"⟩]⟩]⟩]⟩

/-- Module with an embedded-space literal `"SGVs bG8="` before the target
call: not strict base64, accepted by `validate=False` decoding. -/
def modSpace : ModuleDef :=
  ⟨[⟨[⟨true,
      [⟨0, OpCode.ldstr, Operand.str "SGVs bG8="⟩,
       ⟨1, OpCode.call, Operand.memberRef "System.Convert" "FromBase64String"⟩]⟩]⟩]⟩

/-- Decoder state for `modHello` after the scanning pass. -/
def sHello : DecoderState :=
  identify_base64_calls { file_path := "sample.exe", file_module := modHello, base64_calls := [] }

/-- Decoder state for `modMixed` after the scanning pass. -/
def sMixed : DecoderState :=
  identify_base64_calls { file_path := "mixed.exe", file_module := modMixed, base64_calls := [] }


theorem length_modIdx (f : α → α) : ∀ (n : Nat) (l : List α), (modIdx f n l).length = l.length
  | n, [] => by cases n <;> rfl
  | 0, _ :: _ => rfl
  | n + 1, _ :: xs => congrArg Nat.succ (length_modIdx f n xs)

theorem getElem?_modIdx_self (f : α → α) :
    ∀ (n : Nat) (l : List α), (modIdx f n l)[n]? = l[n]?.map f
  | n, [] => by cases n <;> simp [modIdx]
  | 0, x :: xs => by simp [modIdx]
  | n + 1, x :: xs => by simpa [modIdx] using getElem?_modIdx_self f n xs

theorem getElem?_modIdx_ne (f : α → α) :
    ∀ (n k : Nat) (l : List α), k ≠ n → (modIdx f n l)[k]? = l[k]?
  | n, _, [], _ => by cases n <;> rfl
  | 0, 0, _ :: _, h => absurd rfl h
  | 0, _ + 1, x :: xs, _ => by simp [modIdx]
  | _ + 1, 0, x :: xs, _ => by simp [modIdx]
  | n + 1, k + 1, x :: xs, h => by
      simpa [modIdx] using getElem?_modIdx_ne f n k xs (fun hk => h (by omega))

theorem getInsn_modifyInsn_self (mod : ModuleDef) (t m i : Nat) (f : Instruction → Instruction) :
    getInsn (modifyInsn mod t m i f) t m i = (getInsn mod t m i).map f := by
  unfold getInsn modifyInsn
  simp only [getElem?_modIdx_self]
  cases htype : mod.types[t]? with
  | none => rfl
  | some ty =>
    simp only [Option.map_some', getElem?_modIdx_self]
    cases hme : ty.methods[m]? with
    | none => rfl
    | some me => simp only [Option.map_some', getElem?_modIdx_self]

theorem getInsn_modifyInsn_ne (mod : ModuleDef) (t m i t' m' i' : Nat)
    (f : Instruction → Instruction) (h : (t', m', i') ≠ (t, m, i)) :
    getInsn (modifyInsn mod t m i f) t' m' i' = getInsn mod t' m' i' := by
  unfold getInsn modifyInsn
  by_cases ht : t' = t
  · subst ht
    simp only [getElem?_modIdx_self]
    cases htype : mod.types[t']? with
    | none => rfl
    | some ty =>
      simp only [Option.map_some']
      by_cases hm : m' = m
      · subst hm
        simp only [getElem?_modIdx_self]
        cases hme : ty.methods[m']? with
        | none => rfl
        | some me =>
          have hi : i' ≠ i := fun hi => h (by rw [hi])
          simp only [Option.map_some', getElem?_modIdx_ne _ i i' _ hi]
      · simp only [getElem?_modIdx_ne _ m m' _ hm]
  · rw [getElem?_modIdx_ne _ t t' _ ht]

theorem foldl_append_flatMap (g : α → List β) :
    ∀ (l : List α) (acc : List β),
      l.foldl (fun a x => a ++ g x) acc = acc ++ l.flatMap g
  | [], acc => by simp
  | x :: xs, acc => by
      rw [List.foldl_cons, foldl_append_flatMap g xs, List.flatMap_cons, List.append_assoc]

theorem scanBody_eq (insns : List Instruction) :
    scanBody insns = insns.flatMap (scanHit insns) := by
  unfold scanBody
  rw [foldl_append_flatMap, List.nil_append]

theorem mem_scanHit {insns : List Instruction} {insn : Instruction} {i p : Nat} :
    (i, p) ∈ scanHit insns insn ↔
      isTargetCall insn = true ∧ i = insns.indexOf insn ∧
      p = pyPrevIdx insns.length (insns.indexOf insn) ∧
      ∃ prev, insns[pyPrevIdx insns.length (insns.indexOf insn)]? = some prev ∧
        prev.opCode = OpCode.ldstr := by
  unfold scanHit
  by_cases hT : isTargetCall insn = true
  · rw [if_pos hT]
    cases hprev : insns[pyPrevIdx insns.length (insns.indexOf insn)]? with
    | none => simp [hT]
    | some prev =>
      by_cases hop : prev.opCode = OpCode.ldstr
      · simp [hT, hop, Prod.ext_iff]
      · simp [hT, hop]
  · simp [hT]

theorem scanBody_mem_iff {insns : List Instruction} (hnd : insns.Nodup) (i p : Nat) :
    (i, p) ∈ scanBody insns ↔
      (∃ insn, insns[i]? = some insn ∧ isTargetCall insn = true) ∧
      p = pyPrevIdx insns.length i ∧
      ∃ prev, insns[p]? = some prev ∧ prev.opCode = OpCode.ldstr := by
  rw [scanBody_eq, List.mem_flatMap]
  constructor
  · rintro ⟨insn, hmem, hhit⟩
    rw [mem_scanHit] at hhit
    obtain ⟨hT, hi, hp, prev, hprev, hop⟩ := hhit
    have hidx : insns.indexOf insn < insns.length := List.indexOf_lt_length.2 hmem
    have hget : insns[insns.indexOf insn]? = some insn := by
      rw [List.getElem?_eq_getElem hidx, List.getElem_indexOf hidx]
    subst hi hp
    exact ⟨⟨insn, hget, hT⟩, rfl, prev, hprev, hop⟩
  · rintro ⟨⟨insn, hget, hT⟩, hp, prev, hprev, hop⟩
    obtain ⟨hlt, hgetl⟩ := List.getElem?_eq_some_iff.1 hget
    have hidx : insns.indexOf insn = i := by
      rw [← hgetl]
      exact List.indexOf_getElem hnd i hlt
    refine ⟨insn, ?_, ?_⟩
    · rw [← hgetl]; exact List.getElem_mem hlt
    · rw [mem_scanHit, hidx]
      exact ⟨hT, rfl, hp, prev, hp ▸ hprev, hop⟩

theorem decodeStep_eq (mod : ModuleDef) (ps : List (String × String))
    (ls : List (Operand × PyDecodeError)) (m : MatchRec) :
    decodeStep (mod, ps, ls) m =
      (patchedMod mod m, ps ++ (decodePairSpec mod m).toList, ls ++ logSpec mod m) := by
  unfold decodeStep patchedMod decodePairSpec logSpec
  cases hI : getInsn mod m.tIdx m.mIdx m.strIdx with
  | none => simp
  | some insn =>
    cases hop : insn.operand with
    | str s =>
      cases hd : tryDecodeStr s with
      | ok d => simp [hop, hd]
      | error e => simp [hop, hd]
    | memberRef a b => simp [hop]
    | other k => simp [hop]

theorem patchedMod_none {mod : ModuleDef} {m : MatchRec}
    (hd : decodePairSpec mod m = none) : patchedMod mod m = mod := by
  unfold patchedMod
  rw [hd]

theorem getSlot_patchedMod_ne (mod : ModuleDef) (m : MatchRec) (q : Nat × Nat × Nat)
    (hc : q ≠ callSlot m) (hs : q ≠ strSlot m) :
    getSlot (patchedMod mod m) q = getSlot mod q := by
  obtain ⟨a, b, c⟩ := q
  unfold patchedMod
  cases hd : decodePairSpec mod m with
  | none => rfl
  | some sd =>
    unfold getSlot
    rw [getInsn_modifyInsn_ne _ _ _ _ _ _ _ _ (by simpa [callSlot] using hc),
      getInsn_modifyInsn_ne _ _ _ _ _ _ _ _ (by simpa [strSlot] using hs)]

theorem getSlot_patchedMod_str {mod : ModuleDef} {m : MatchRec} {sd : String × String}
    (hd : decodePairSpec mod m = some sd) (hne : callSlot m ≠ strSlot m) :
    getSlot (patchedMod mod m) (strSlot m) = (getSlot mod (strSlot m)).map (patchStr sd.2) ∧
    getSlot (patchedMod mod m) (callSlot m) = (getSlot mod (callSlot m)).map patchCall := by
  unfold patchedMod
  rw [hd]
  unfold getSlot callSlot strSlot
  constructor
  · rw [getInsn_modifyInsn_ne _ _ _ _ _ _ _ _ (by simpa [callSlot, strSlot] using hne.symm),
      getInsn_modifyInsn_self]
  · rw [getInsn_modifyInsn_self,
      getInsn_modifyInsn_ne _ _ _ _ _ _ _ _ (by simpa [callSlot, strSlot] using hne)]

theorem decodePairSpec_congr {mod' mod : ModuleDef} (m : MatchRec)
    (h : getSlot mod' (strSlot m) = getSlot mod (strSlot m)) :
    decodePairSpec mod' m = decodePairSpec mod m := by
  unfold getSlot strSlot at h
  unfold decodePairSpec
  rw [h]

theorem logSpec_congr {mod' mod : ModuleDef} (m : MatchRec)
    (h : getSlot mod' (strSlot m) = getSlot mod (strSlot m)) :
    logSpec mod' m = logSpec mod m := by
  unfold getSlot strSlot at h
  unfold logSpec
  rw [h]

theorem allSlots_cons (m : MatchRec) (ms : List MatchRec) :
    allSlots (m :: ms) = slotsOf m ++ allSlots ms := by
  unfold allSlots
  rw [List.flatMap_cons]

theorem nodup_allSlots_parts {m : MatchRec} {ms : List MatchRec}
    (h : (allSlots (m :: ms)).Nodup) :
    callSlot m ≠ strSlot m ∧ (allSlots ms).Nodup ∧
      ∀ q ∈ slotsOf m, q ∉ allSlots ms := by
  rw [allSlots_cons, List.nodup_append] at h
  obtain ⟨h1, h2, h3⟩ := h
  refine ⟨?_, h2, fun q hq hq' => h3 hq hq'⟩
  have := List.nodup_cons.1 h1
  simpa using this.1

theorem callSlot_mem_allSlots {m : MatchRec} {ms : List MatchRec} (hm : m ∈ ms) :
    callSlot m ∈ allSlots ms :=
  List.mem_flatMap.2 ⟨m, hm, by simp [slotsOf]⟩

theorem strSlot_mem_allSlots {m : MatchRec} {ms : List MatchRec} (hm : m ∈ ms) :
    strSlot m ∈ allSlots ms :=
  List.mem_flatMap.2 ⟨m, hm, by simp [slotsOf]⟩

theorem foldDecode_frame :
    ∀ (ms : List MatchRec) (mod : ModuleDef) (ps : List (String × String))
      (ls : List (Operand × PyDecodeError)) (q : Nat × Nat × Nat),
      (∀ m ∈ ms, q ≠ callSlot m ∧ q ≠ strSlot m) →
      getSlot (ms.foldl decodeStep (mod, ps, ls)).1 q = getSlot mod q
  | [], _, _, _, _, _ => rfl
  | m :: rest, mod, ps, ls, q, h => by
      rw [List.foldl_cons, decodeStep_eq,
        foldDecode_frame rest _ _ _ q (fun m' hm' => h m' (List.mem_cons_of_mem m hm'))]
      exact getSlot_patchedMod_ne mod m q (h m (List.mem_cons_self m rest)).1
        (h m (List.mem_cons_self m rest)).2

theorem foldDecode_pairs :
    ∀ (ms : List MatchRec) (mod : ModuleDef) (ps : List (String × String))
      (ls : List (Operand × PyDecodeError)), (allSlots ms).Nodup →
      (ms.foldl decodeStep (mod, ps, ls)).2.1 = ps ++ ms.filterMap (decodePairSpec mod)
  | [], _, ps, _, _ => by simp
  | m :: rest, mod, ps, ls, h => by
      obtain ⟨hne, hrest, hdisj⟩ := nodup_allSlots_parts h
      rw [List.foldl_cons, decodeStep_eq, foldDecode_pairs rest (patchedMod mod m) _ _ hrest]
      have hcong : rest.filterMap (decodePairSpec (patchedMod mod m)) =
          rest.filterMap (decodePairSpec mod) := by
        refine List.filterMap_congr fun m' hm' => decodePairSpec_congr m' ?_
        refine getSlot_patchedMod_ne mod m (strSlot m') ?_ ?_
        · intro hq
          exact hdisj (callSlot m) (by simp [slotsOf]) (hq ▸ strSlot_mem_allSlots hm')
        · intro hq
          exact hdisj (strSlot m) (by simp [slotsOf]) (hq ▸ strSlot_mem_allSlots hm')
      rw [hcong, List.filterMap_cons]
      cases hd : decodePairSpec mod m <;> simp [List.append_assoc]

theorem foldDecode_logs :
    ∀ (ms : List MatchRec) (mod : ModuleDef) (ps : List (String × String))
      (ls : List (Operand × PyDecodeError)), (allSlots ms).Nodup →
      (ms.foldl decodeStep (mod, ps, ls)).2.2 = ls ++ ms.flatMap (logSpec mod)
  | [], _, _, ls, _ => by simp
  | m :: rest, mod, ps, ls, h => by
      obtain ⟨hne, hrest, hdisj⟩ := nodup_allSlots_parts h
      rw [List.foldl_cons, decodeStep_eq, foldDecode_logs rest (patchedMod mod m) _ _ hrest]
      have hcong : rest.flatMap (logSpec (patchedMod mod m)) =
          rest.flatMap (logSpec mod) := by
        refine List.flatMap_congr fun m' hm' => logSpec_congr m' ?_
        refine getSlot_patchedMod_ne mod m (strSlot m') ?_ ?_
        · intro hq
          exact hdisj (callSlot m) (by simp [slotsOf]) (hq ▸ strSlot_mem_allSlots hm')
        · intro hq
          exact hdisj (strSlot m) (by simp [slotsOf]) (hq ▸ strSlot_mem_allSlots hm')
      rw [hcong, List.flatMap_cons, List.append_assoc]

theorem foldDecode_success :
    ∀ (ms : List MatchRec) (mod : ModuleDef) (ps : List (String × String))
      (ls : List (Operand × PyDecodeError)) (m : MatchRec) (sd : String × String),
      (allSlots ms).Nodup → m ∈ ms → decodePairSpec mod m = some sd →
      getSlot (ms.foldl decodeStep (mod, ps, ls)).1 (strSlot m) =
        (getSlot mod (strSlot m)).map (patchStr sd.2) ∧
      getSlot (ms.foldl decodeStep (mod, ps, ls)).1 (callSlot m) =
        (getSlot mod (callSlot m)).map patchCall
  | [], _, _, _, _, _, _, hm, _ => absurd hm (List.not_mem_nil _)
  | m0 :: rest, mod, ps, ls, m, sd, h, hm, hd => by
      obtain ⟨hne, hrest, hdisj⟩ := nodup_allSlots_parts h
      rw [List.foldl_cons, decodeStep_eq]
      rcases List.mem_cons.1 hm with rfl | hm'
      · have hpatch := getSlot_patchedMod_str hd hne
        have hstrpre : ∀ m' ∈ rest, strSlot m ≠ callSlot m' ∧ strSlot m ≠ strSlot m' := by
          intro m' hm'
          constructor
          · intro hq
            exact hdisj (strSlot m) (by simp [slotsOf]) (hq ▸ callSlot_mem_allSlots hm')
          · intro hq
            exact hdisj (strSlot m) (by simp [slotsOf]) (hq ▸ strSlot_mem_allSlots hm')
        have hcallpre : ∀ m' ∈ rest, callSlot m ≠ callSlot m' ∧ callSlot m ≠ strSlot m' := by
          intro m' hm'
          constructor
          · intro hq
            exact hdisj (callSlot m) (by simp [slotsOf]) (hq ▸ callSlot_mem_allSlots hm')
          · intro hq
            exact hdisj (callSlot m) (by simp [slotsOf]) (hq ▸ strSlot_mem_allSlots hm')
        rw [foldDecode_frame rest _ _ _ _ hstrpre, foldDecode_frame rest _ _ _ _ hcallpre]
        exact hpatch
      · have hfr : getSlot (patchedMod mod m0) (strSlot m) = getSlot mod (strSlot m) := by
          refine getSlot_patchedMod_ne mod m0 (strSlot m) ?_ ?_
          · intro hq
            exact hdisj (callSlot m0) (by simp [slotsOf]) (hq ▸ strSlot_mem_allSlots hm')
          · intro hq
            exact hdisj (strSlot m0) (by simp [slotsOf]) (hq ▸ strSlot_mem_allSlots hm')
        have hfrc : getSlot (patchedMod mod m0) (callSlot m) = getSlot mod (callSlot m) := by
          refine getSlot_patchedMod_ne mod m0 (callSlot m) ?_ ?_
          · intro hq
            exact hdisj (callSlot m0) (by simp [slotsOf]) (hq ▸ callSlot_mem_allSlots hm')
          · intro hq
            exact hdisj (strSlot m0) (by simp [slotsOf]) (hq ▸ callSlot_mem_allSlots hm')
        have hd' : decodePairSpec (patchedMod mod m0) m = some sd := by
          rw [decodePairSpec_congr m hfr, hd]
        have IH := foldDecode_success rest (patchedMod mod m0)
          (ps ++ (decodePairSpec mod m0).toList) (ls ++ logSpec mod m0) m sd hrest hm' hd'
        rw [IH.1, IH.2, hfr, hfrc]
        exact ⟨rfl, rfl⟩

theorem foldDecode_failure :
    ∀ (ms : List MatchRec) (mod : ModuleDef) (ps : List (String × String))
      (ls : List (Operand × PyDecodeError)) (m : MatchRec),
      (allSlots ms).Nodup → m ∈ ms → decodePairSpec mod m = none →
      getSlot (ms.foldl decodeStep (mod, ps, ls)).1 (strSlot m) = getSlot mod (strSlot m) ∧
      getSlot (ms.foldl decodeStep (mod, ps, ls)).1 (callSlot m) = getSlot mod (callSlot m)
  | [], _, _, _, _, _, hm, _ => absurd hm (List.not_mem_nil _)
  | m0 :: rest, mod, ps, ls, m, h, hm, hd => by
      obtain ⟨hne, hrest, hdisj⟩ := nodup_allSlots_parts h
      rw [List.foldl_cons, decodeStep_eq]
      rcases List.mem_cons.1 hm with rfl | hm'
      · rw [patchedMod_none hd]
        have hstrpre : ∀ m' ∈ rest, strSlot m ≠ callSlot m' ∧ strSlot m ≠ strSlot m' := by
          intro m' hm'
          constructor
          · intro hq
            exact hdisj (strSlot m) (by simp [slotsOf]) (hq ▸ callSlot_mem_allSlots hm')
          · intro hq
            exact hdisj (strSlot m) (by simp [slotsOf]) (hq ▸ strSlot_mem_allSlots hm')
        have hcallpre : ∀ m' ∈ rest, callSlot m ≠ callSlot m' ∧ callSlot m ≠ strSlot m' := by
          intro m' hm'
          constructor
          · intro hq
            exact hdisj (callSlot m) (by simp [slotsOf]) (hq ▸ callSlot_mem_allSlots hm')
          · intro hq
            exact hdisj (callSlot m) (by simp [slotsOf]) (hq ▸ strSlot_mem_allSlots hm')
        exact ⟨foldDecode_frame rest _ _ _ _ hstrpre, foldDecode_frame rest _ _ _ _ hcallpre⟩
      · have hfr : getSlot (patchedMod mod m0) (strSlot m) = getSlot mod (strSlot m) := by
          refine getSlot_patchedMod_ne mod m0 (strSlot m) ?_ ?_
          · intro hq
            exact hdisj (callSlot m0) (by simp [slotsOf]) (hq ▸ strSlot_mem_allSlots hm')
          · intro hq
            exact hdisj (strSlot m0) (by simp [slotsOf]) (hq ▸ strSlot_mem_allSlots hm')
        have hfrc : getSlot (patchedMod mod m0) (callSlot m) = getSlot mod (callSlot m) := by
          refine getSlot_patchedMod_ne mod m0 (callSlot m) ?_ ?_
          · intro hq
            exact hdisj (callSlot m0) (by simp [slotsOf]) (hq ▸ callSlot_mem_allSlots hm')
          · intro hq
            exact hdisj (strSlot m0) (by simp [slotsOf]) (hq ▸ callSlot_mem_allSlots hm')
        have hd' : decodePairSpec (patchedMod mod m0) m = none := by
          rw [decodePairSpec_congr m hfr, hd]
        have IH := foldDecode_failure rest (patchedMod mod m0)
          (ps ++ (decodePairSpec mod m0).toList) (ls ++ logSpec mod m0) m hrest hm' hd'
        rw [IH.1, IH.2, hfr, hfrc]
        exact ⟨rfl, rfl⟩

theorem foldDecode_frame_zero :
    ∀ (ms : List MatchRec) (mod : ModuleDef) (ps : List (String × String))
      (ls : List (Operand × PyDecodeError)) (q : Nat × Nat × Nat),
      (allSlots ms).Nodup →
      (∀ m ∈ ms, (decodePairSpec mod m).isSome = true →
        q ≠ callSlot m ∧ q ≠ strSlot m) →
      getSlot (ms.foldl decodeStep (mod, ps, ls)).1 q = getSlot mod q
  | [], _, _, _, _, _, _ => rfl
  | m0 :: rest, mod, ps, ls, q, h, hq => by
      obtain ⟨hne, hrest, hdisj⟩ := nodup_allSlots_parts h
      rw [List.foldl_cons, decodeStep_eq]
      cases hd : decodePairSpec mod m0 with
      | none =>
        rw [patchedMod_none hd]
        exact foldDecode_frame_zero rest mod _ _ q hrest
          (fun m' hm' hs => hq m' (List.mem_cons_of_mem m0 hm') hs)
      | some sd =>
        have hq0 := hq m0 (List.mem_cons_self m0 rest) (by rw [hd]; rfl)
        have htrans : ∀ m' ∈ rest, (decodePairSpec (patchedMod mod m0) m').isSome = true →
            q ≠ callSlot m' ∧ q ≠ strSlot m' := by
          intro m' hm' hs
          have hfr : getSlot (patchedMod mod m0) (strSlot m') = getSlot mod (strSlot m') := by
            refine getSlot_patchedMod_ne mod m0 (strSlot m') ?_ ?_
            · intro hqq
              exact hdisj (callSlot m0) (by simp [slotsOf]) (hqq ▸ strSlot_mem_allSlots hm')
            · intro hqq
              exact hdisj (strSlot m0) (by simp [slotsOf]) (hqq ▸ strSlot_mem_allSlots hm')
          rw [decodePairSpec_congr m' hfr] at hs
          exact hq m' (List.mem_cons_of_mem m0 hm') hs
        rw [foldDecode_frame_zero rest (patchedMod mod m0) _ _ q hrest htrans]
        exact getSlot_patchedMod_ne mod m0 q hq0.1 hq0.2

theorem length_filterMap_isSome (f : α → Option β) :
    ∀ l : List α, (l.filterMap f).length = (l.filter (fun a => (f a).isSome)).length
  | [] => rfl
  | x :: xs => by
      rw [List.filterMap_cons]
      cases hf : f x <;>
        simp [List.filter_cons, hf, length_filterMap_isSome f xs]

theorem lastDotSplit_none_iff : ∀ l : List Char, lastDotSplit l = none ↔ '.' ∉ l
  | [] => by simp [lastDotSplit]
  | c :: rest => by
      unfold lastDotSplit
      cases h : lastDotSplit rest with
      | some ab =>
        have : '.' ∈ rest := by
          by_contra hmem
          rw [(lastDotSplit_none_iff rest).2 hmem] at h
          cases h
        simp [this]
      | none =>
        have hrest : '.' ∉ rest := (lastDotSplit_none_iff rest).1 h
        by_cases hc : c = '.'
        · simp [hc]
        · simp [hc, hrest, List.mem_cons]
          exact fun he => hc he.symm

theorem lastDotSplit_eq_append :
    ∀ (l a b : List Char), lastDotSplit l = some (a, b) → l = a ++ '.' :: b
  | [], _, _, h => by cases h
  | c :: rest, a, b, h => by
      unfold lastDotSplit at h
      cases hrec : lastDotSplit rest with
      | some ab =>
        rw [hrec] at h
        obtain ⟨rfl, rfl⟩ : c :: ab.1 = a ∧ ab.2 = b := by
          have := Option.some.inj h
          exact ⟨congrArg Prod.fst this, congrArg Prod.snd this⟩
        have := lastDotSplit_eq_append rest ab.1 ab.2 (by rw [hrec])
        simp [this]
      | none =>
        rw [hrec] at h
        by_cases hc : c = '.'
        · rw [if_pos hc] at h
          obtain ⟨rfl, rfl⟩ : ([] : List Char) = a ∧ rest = b := by
            have := Option.some.inj h
            exact ⟨congrArg Prod.fst this, congrArg Prod.snd this⟩
          simp [hc]
        · rw [if_neg hc] at h
          cases h

theorem length_cleaned_dot {fp : String} {a b : List Char}
    (h : lastDotSplit fp.data = some (a, b)) :
    (cleaned_filename fp).length = a.length + 9 + b.length ∧
      fp.length = a.length + 1 + b.length := by
  constructor
  · unfold cleaned_filename
    rw [h]
    simp [String.length_append]
    rfl
  · have hsplit := lastDotSplit_eq_append fp.data a b h
    have hlen : fp.data.length = a.length + (b.length + 1) := by
      rw [hsplit, List.length_append, List.length_cons]
    change fp.data.length = _
    omega

theorem cleaned_filename_ne (fp : String) : cleaned_filename fp ≠ fp := by
  intro he
  cases h : lastDotSplit fp.data with
  | none =>
    unfold cleaned_filename at he
    rw [h] at he
    have hlen := congrArg String.length he
    rw [String.length_append] at hlen
    have h12 : ("_decoded.exe" : String).length = 12 := rfl
    omega
  | some ab =>
    obtain ⟨h1, h2⟩ := length_cleaned_dot (a := ab.1) (b := ab.2) (by rw [h])
    have hlen := congrArg String.length he
    omega

/-- C1: the claim says that for a method whose body's FIRST instruction is
the target call, the Scanner must not wrap around to the sequence's tail and
must either skip that call or raise a clear, contained error.  The code does
neither: for `modWrap`, whose single body is
`[Call Convert.FromBase64String, Ldstr "QUJD"]`, line 49 computes
`Instructions[IndexOf(insn) - 1] = Instructions[-1]`, which under Python
sequence indexing wraps around to the LAST instruction; that instruction is a
`Ldstr`, so a match is silently recorded pairing the call at position 0 with
the unrelated literal at position 1 (the tail).  Here `pyPrevIdx` is the
index the code reads.  This theorem evaluates the code at that failing
input; the spec itself (§9) flags the original behaviour as a latent defect,
so the claim is right and the code wrong. -/
theorem C1_first_instruction_wraps :
    scanModule modWrap = [⟨0, 0, 0, 1⟩] ∧
    (identify_base64_calls ⟨"w.exe", modWrap, []⟩).base64_calls = [⟨0, 0, 0, 1⟩] ∧
    pyPrevIdx [wCall, wLd].length ([wCall, wLd].indexOf wCall) = 1 := by decide

/-- C2, counterexample: the claim states that a Match is emitted exactly for
call instructions whose IMMEDIATELY PRECEDING instruction is a
load-string-literal.  On the body `[wCall, wLd]` (target call first, literal
last) the Scanner emits the match `(0, 1)`: the recorded "previous"
instruction sits at position 1, AFTER the call at position 0, which has no
preceding instruction at all — so the emitted match set is not the one the
claim describes. -/
theorem C2_counterexample :
    scanBody [wCall, wLd] = [(0, 1)] ∧
    pyPrevIdx [wCall, wLd].length ([wCall, wLd].indexOf wCall) = 1 ∧
    [wCall, wLd].length - 1 = 1 := by decide

/-- C2 (amended): over a body of pairwise-distinct instruction objects, the
Scanner emits `(i, p)` exactly when position `i` holds a call to
`System.Convert.FromBase64String`, `p` is the position the Python expression
`Instructions[IndexOf(insn) - 1]` reads — the immediately preceding position
`i - 1` when `i ≥ 1`, but the LAST position of the body when `i = 0`
(wrap-around, the known boundary defect) — and position `p` holds a
load-string-literal; calls to any other signature emit no match regardless of
the preceding instruction, and a method with no body contributes zero matches
with its body list never inspected. -/
theorem C2_scan_iff (insns : List Instruction) (hnd : insns.Nodup) :
    (∀ i p, (i, p) ∈ scanBody insns ↔
      (∃ insn, insns[i]? = some insn ∧ isTargetCall insn = true) ∧
      p = pyPrevIdx insns.length i ∧
      (∃ prev, insns[p]? = some prev ∧ prev.opCode = OpCode.ldstr)) ∧
    (∀ t m me, me.hasBody = false → scanMethod t m me = []) ∧
    (∀ t m me b, me.hasBody = false →
      scanMethod t m { hasBody := me.hasBody, body := b } = scanMethod t m me) := by
  refine ⟨scanBody_mem_iff hnd, ?_, ?_⟩
  · intro t m me hb
    simp [scanMethod, hb]
  · intro t m me b hb
    simp [scanMethod, hb]

/-- Witness for C2: on the body `[iLd, iCall]` the characterization yields
the match `(1, 0)`, and a bodiless method yields no matches. -/
theorem C2_scan_iff_witness :
    (1, 0) ∈ scanBody [iLd, iCall] ∧ scanMethod 0 0 ⟨false, [iLd, iCall]⟩ = [] := by
  have h := C2_scan_iff [iLd, iCall] (by decide)
  exact ⟨(h.1 1 0).mpr ⟨⟨iCall, by decide, by decide⟩, by decide,
    ⟨iLd, by decide, by decide⟩⟩, h.2.1 0 0 ⟨false, [iLd, iCall]⟩ rfl⟩

/-- C6: the scanning pass mutates nothing — `identify_base64_calls` leaves
the module (hence every instruction's opcode and operand) and the file path
unchanged and only appends the scan result to `self.base64_calls`; and in the
`main` pipeline the match list consumed by the Patcher is exactly
`scanModule` of the original, unmutated module, fully computed before
`decode_base64_strings` runs. -/
theorem C6_scan_pure (s : DecoderState) :
    (identify_base64_calls s).file_module = s.file_module ∧
    (identify_base64_calls s).file_path = s.file_path ∧
    (∀ t m i, getInsn (identify_base64_calls s).file_module t m i = getInsn s.file_module t m i) ∧
    (identify_base64_calls s).base64_calls = s.base64_calls ++ scanModule s.file_module ∧
    (∀ fp mod, (mainPipeline fp mod).state.base64_calls = scanModule mod) := by
  refine ⟨rfl, rfl, fun t m i => rfl, rfl, fun fp mod => ?_⟩
  unfold mainPipeline
  dsimp only
  split <;> rfl

/-- C7: the external Writer runs and the table is printed exactly when
`decode_base64_strings` returned at least one pair: `savedPath` is `some`
and `printedTable` is `true` iff `decoded_strings` is non-empty. -/
theorem C7_writer_condition (fp : String) (mod : ModuleDef) :
    (mainPipeline fp mod).savedPath.isSome = !(mainPipeline fp mod).decoded_strings.isEmpty ∧
    (mainPipeline fp mod).printedTable = !(mainPipeline fp mod).decoded_strings.isEmpty := by
  unfold mainPipeline
  by_cases h : (decode_base64_strings (identify_base64_calls
      { file_path := fp, file_module := mod, base64_calls := [] })).2.1.isEmpty <;>
    simp [h]

/-- C9: base64 decoding is invoked without strict validation (CPython's
`validate=False` discards characters outside the alphabet, such as the
space, which `b64CharVal` rejects), so the literal `"SGVs bG8="` — not
strictly valid base64 — decodes to `"Hello"`: the Patcher succeeds, records
the pair and mutates both instructions instead of skipping the match. -/
theorem C9_lenient_decode :
    b64CharVal ' ' = none ∧
    b64decode "SGVs bG8=" = Except.ok [72, 101, 108, 108, 111] ∧
    b64decode "SGVs bG8=" = b64decode "SGVsbG8=" ∧
    tryDecodeStr "SGVs bG8=" = Except.ok "Hello" ∧
    (decode_base64_strings (identify_base64_calls
      ⟨"s.exe", modSpace, []⟩)).2.1 = [("SGVs bG8=", "Hello")] ∧
    (decode_base64_strings (identify_base64_calls
      ⟨"s.exe", modSpace, []⟩)).1.file_module =
      ⟨[⟨[⟨true, [⟨0, OpCode.ldstr, Operand.str "Hello"⟩,
        ⟨1, OpCode.nop, Operand.memberRef "System.Convert" "FromBase64String"⟩]⟩]⟩]⟩ := by
  decide

/-- C10: `__init__` creates `self.base64_calls = []` once, and
`identify_base64_calls` only ever appends: running the scan twice on the
same decoder object appends every match again, so each patchable site
appears twice in the match list (the scan is not idempotent on the decoder's
state). -/
theorem C10_scan_accumulates (s : DecoderState) (h0 : s.base64_calls = []) :
    (identify_base64_calls (identify_base64_calls s)).base64_calls =
      scanModule s.file_module ++ scanModule s.file_module ∧
    ∀ m : MatchRec, ((identify_base64_calls (identify_base64_calls s)).base64_calls).count m =
      2 * (scanModule s.file_module).count m := by
  have h1 : (identify_base64_calls (identify_base64_calls s)).base64_calls =
      scanModule s.file_module ++ scanModule s.file_module := by
    unfold identify_base64_calls
    simp [h0]
  refine ⟨h1, fun m => ?_⟩
  rw [h1, List.count_append]
  omega

/-- Witness for C10: scanning `modHello` twice records the single patchable
site twice. -/
theorem C10_scan_accumulates_witness :
    (identify_base64_calls (identify_base64_calls
      ⟨"sample.exe", modHello, []⟩)).base64_calls = [⟨0, 0, 1, 0⟩, ⟨0, 0, 1, 0⟩] ∧
    ((identify_base64_calls (identify_base64_calls
      ⟨"sample.exe", modHello, []⟩)).base64_calls).count ⟨0, 0, 1, 0⟩ = 2 := by
  have h := C10_scan_accumulates ⟨"sample.exe", modHello, []⟩ rfl
  refine ⟨by decide, ?_⟩
  rw [h.2 ⟨0, 0, 1, 0⟩]
  decide

/-- C3: for every recorded Match whose literal operand decodes validly under
base64 then UTF-8 (`decodePairSpec` returns the `(encoded, decoded)` pair),
`decode_base64_strings` includes the pair in its returned list, replaces the
literal instruction's operand with the decoded text while its opcode remains
`Ldstr` (`patchStr`), and turns the call instruction's opcode into `Nop`
(`patchCall`).  The `Nodup` hypothesis says the recorded matches reference
pairwise-distinct instruction objects, as any single scanning pass
produces. -/
theorem C3_patch_success (s : DecoderState) (m : MatchRec) (enc dec : String)
    (hnd : (allSlots s.base64_calls).Nodup) (hm : m ∈ s.base64_calls)
    (hd : decodePairSpec s.file_module m = some (enc, dec)) :
    (enc, dec) ∈ (decode_base64_strings s).2.1 ∧
    getSlot (decode_base64_strings s).1.file_module (strSlot m) =
      (getSlot s.file_module (strSlot m)).map (patchStr dec) ∧
    getSlot (decode_base64_strings s).1.file_module (callSlot m) =
      (getSlot s.file_module (callSlot m)).map patchCall := by
  have hs := foldDecode_success s.base64_calls s.file_module [] [] m (enc, dec) hnd hm hd
  refine ⟨?_, hs.1, hs.2⟩
  show (enc, dec) ∈ (s.base64_calls.foldl decodeStep (s.file_module, [], [])).2.1
  rw [foldDecode_pairs s.base64_calls _ _ _ hnd, List.nil_append]
  exact List.mem_filterMap.2 ⟨m, hm, hd⟩

/-- Witness for C3, the end-to-end scenario of the claim: on `modHello`,
whose single body is `[Ldstr "SGVsbG8=", Call Convert.FromBase64String]`, the
scanner records one match, the patcher returns the pair
`("SGVsbG8=", "Hello")` and the final body is `[Ldstr "Hello", Nop]` (with
operands and identities of both instructions as shown). -/
theorem C3_patch_success_witness :
    ("SGVsbG8=", "Hello") ∈ (decode_base64_strings sHello).2.1 ∧
    sHello.base64_calls = [⟨0, 0, 1, 0⟩] ∧
    (decode_base64_strings sHello).1.file_module =
      ⟨[⟨[⟨true, [⟨0, OpCode.ldstr, Operand.str "Hello"⟩,
        ⟨1, OpCode.nop, Operand.memberRef "System.Convert" "FromBase64String"⟩]⟩]⟩]⟩ := by
  have h := C3_patch_success sHello ⟨0, 0, 1, 0⟩ "SGVsbG8=" "Hello"
    (by decide) (by decide) (by decide)
  exact ⟨h.1, by decide, by decide⟩

/-- C4: for every recorded Match whose literal fails to decode — the
recorded instruction's operand is the string `enc` and base64-then-UTF-8
decoding raises (`tryDecodeStr enc` errs) — the Patcher leaves both the
literal and the call instruction untouched, logs the failure with the
original encoded string and the cause, contributes nothing for this match to
the returned list, and still processes all remaining matches (the returned
list is exactly the per-match `decodePairSpec` results over the whole match
list). -/
theorem C4_patch_failure (s : DecoderState) (m : MatchRec) (si : Instruction)
    (enc : String) (err : PyDecodeError)
    (hnd : (allSlots s.base64_calls).Nodup) (hm : m ∈ s.base64_calls)
    (hsi : getSlot s.file_module (strSlot m) = some si)
    (hop : si.operand = Operand.str enc)
    (herr : tryDecodeStr enc = Except.error err) :
    getSlot (decode_base64_strings s).1.file_module (strSlot m) =
      getSlot s.file_module (strSlot m) ∧
    getSlot (decode_base64_strings s).1.file_module (callSlot m) =
      getSlot s.file_module (callSlot m) ∧
    (Operand.str enc, err) ∈ (decode_base64_strings s).2.2 ∧
    (decode_base64_strings s).2.1 =
      s.base64_calls.filterMap (decodePairSpec s.file_module) ∧
    decodePairSpec s.file_module m = none := by
  have hsi' : getInsn s.file_module m.tIdx m.mIdx m.strIdx = some si := hsi
  have hdnone : decodePairSpec s.file_module m = none := by
    unfold decodePairSpec
    rw [hsi']
    simp [hop, herr]
  have hlog : logSpec s.file_module m = [(Operand.str enc, err)] := by
    unfold logSpec
    rw [hsi']
    simp [hop, herr]
  have hff := foldDecode_failure s.base64_calls s.file_module [] [] m hnd hm hdnone
  refine ⟨hff.1, hff.2, ?_, ?_, hdnone⟩
  · show (Operand.str enc, err) ∈ (s.base64_calls.foldl decodeStep (s.file_module, [], [])).2.2
    rw [foldDecode_logs s.base64_calls _ _ _ hnd, List.nil_append]
    exact List.mem_flatMap.2 ⟨m, hm, by rw [hlog]; exact List.mem_singleton_self _⟩
  · show (s.base64_calls.foldl decodeStep (s.file_module, [], [])).2.1 = _
    rw [foldDecode_pairs s.base64_calls _ _ _ hnd, List.nil_append]

/-- Witness for C4, the error scenario of the spec: on `modMixed` the first
match's literal `"not-base64!!"` fails base64 decoding; both its
instructions stay untouched, the failure is logged with the offending string
and its cause, and the remaining match is still processed (the run returns
the pair for `"SGVsbG8="`). -/
theorem C4_patch_failure_witness :
    getSlot (decode_base64_strings sMixed).1.file_module (strSlot ⟨0, 0, 1, 0⟩) =
      getSlot sMixed.file_module (strSlot ⟨0, 0, 1, 0⟩) ∧
    getSlot (decode_base64_strings sMixed).1.file_module (callSlot ⟨0, 0, 1, 0⟩) =
      getSlot sMixed.file_module (callSlot ⟨0, 0, 1, 0⟩) ∧
    (Operand.str "not-base64!!", PyDecodeError.paddingError) ∈
      (decode_base64_strings sMixed).2.2 ∧
    (decode_base64_strings sMixed).2.1 = [("SGVsbG8=", "Hello")] := by
  have h := C4_patch_failure sMixed ⟨0, 0, 1, 0⟩
    ⟨0, OpCode.ldstr, Operand.str "not-base64!!"⟩ "not-base64!!"
    PyDecodeError.paddingError (by decide) (by decide) (by decide) rfl (by decide)
  exact ⟨h.1, h.2.1, h.2.2.1, by decide⟩

/-- C5: frame property of the patcher.  The number of returned pairs is
exactly the number M of recorded matches that decode successfully; every
instruction position that does not belong to a successfully-decoded match —
in particular every literal not recorded next to a target call — is left
unchanged; and both instruction positions of each failing match are left
byte-for-byte unchanged (so with N recorded matches exactly M literal/call
pairs are mutated and the other N − M pairs are untouched). -/
theorem C5_frame (s : DecoderState) (hnd : (allSlots s.base64_calls).Nodup) :
    (decode_base64_strings s).2.1.length =
      (s.base64_calls.filter
        (fun m => (decodePairSpec s.file_module m).isSome)).length ∧
    (∀ q : Nat × Nat × Nat,
      (∀ m ∈ s.base64_calls, (decodePairSpec s.file_module m).isSome = true →
        q ≠ callSlot m ∧ q ≠ strSlot m) →
      getSlot (decode_base64_strings s).1.file_module q = getSlot s.file_module q) ∧
    (∀ m ∈ s.base64_calls, decodePairSpec s.file_module m = none →
      getSlot (decode_base64_strings s).1.file_module (strSlot m) =
        getSlot s.file_module (strSlot m) ∧
      getSlot (decode_base64_strings s).1.file_module (callSlot m) =
        getSlot s.file_module (callSlot m)) := by
  refine ⟨?_, ?_, ?_⟩
  · show (s.base64_calls.foldl decodeStep (s.file_module, [], [])).2.1.length = _
    rw [foldDecode_pairs s.base64_calls _ _ _ hnd, List.nil_append,
      length_filterMap_isSome]
  · intro q hq
    exact foldDecode_frame_zero s.base64_calls _ _ _ q hnd hq
  · intro m hm hdm
    exact foldDecode_failure s.base64_calls _ _ _ m hnd hm hdm

/-- Witness for C5: on `modMixed` (N = 2 matches, M = 1 success) exactly one
pair is returned, and the position `(0,0,0)` — the literal of the failing
match — is untouched. -/
theorem C5_frame_witness :
    (decode_base64_strings sMixed).2.1.length =
      (sMixed.base64_calls.filter
        (fun m => (decodePairSpec sMixed.file_module m).isSome)).length ∧
    getSlot (decode_base64_strings sMixed).1.file_module (0, 0, 0) =
      getSlot sMixed.file_module (0, 0, 0) := by
  have h := C5_frame sMixed (by decide)
  exact ⟨h.1, h.2.1 (0, 0, 0) (by decide)⟩

/-- C8: `save_module` returns (and the external Writer writes to) the path
obtained by splitting `self.file_path` at its last dot: with no dot the
output is `<path>_decoded.exe`, otherwise `<stem>_decoded.<extension>`; the
output path always differs from the input path, so the original file is
never overwritten. -/
theorem C8_save_name (fp : String) :
    ('.' ∉ fp.data ↔ lastDotSplit fp.data = none) ∧
    (lastDotSplit fp.data = none → cleaned_filename fp = fp ++ "_decoded.exe") ∧
    (∀ a b : List Char, lastDotSplit fp.data = some (a, b) →
      fp.data = a ++ '.' :: b ∧
      cleaned_filename fp = String.mk a ++ "_decoded." ++ String.mk b) ∧
    cleaned_filename fp ≠ fp ∧
    (∀ s : DecoderState, save_module s = cleaned_filename s.file_path) := by
  refine ⟨(lastDotSplit_none_iff fp.data).symm, ?_, ?_, cleaned_filename_ne fp, fun s => rfl⟩
  · intro h
    unfold cleaned_filename
    rw [h]
  · intro a b h
    refine ⟨lastDotSplit_eq_append fp.data a b h, ?_⟩
    unfold cleaned_filename
    rw [h]

/-- Witness for C8: for input `"prog.exe"` the output path is
`"prog_decoded.exe"`, which differs from the input. -/
theorem C8_save_name_witness :
    cleaned_filename "prog.exe" = "prog_decoded.exe" ∧
    cleaned_filename "prog.exe" ≠ "prog.exe" := by
  have h := C8_save_name "prog.exe"
  refine ⟨?_, h.2.2.2.1⟩
  exact ((h.2.2.1 "prog".data "exe".data (by decide)).2).trans (by decide)
